import Mathlib

/-!
Verification of the wedding media collection server (`src/server.js`).

The JavaScript source is shallowly embedded: strings are `String` / `List Char`,
JavaScript numbers used as counters and limits are `Int` (all arithmetic in the
program stays far from 2^53, so integer semantics are exact), the SQLite tables
are Lean lists, and the filesystem is a list of file names.  Every definition
mirrors a specific function or route of `src/server.js`, cited by name.
-/

namespace WeddingMedia

/-- JS whitespace: the character set matched by the regex class `\s` and
trimmed by `String.prototype.trim` (ECMAScript WhiteSpace ∪ LineTerminator). -/
def isJsSpace (c : Char) : Bool :=
  c == ' ' || c == '\t' || c == '\n' || c == '\r' ||
  c.toNat == 11 || c.toNat == 12 || c.toNat == 0xa0 || c.toNat == 0x1680 ||
  (0x2000 ≤ c.toNat && c.toNat ≤ 0x200a) ||
  c.toNat == 0x2028 || c.toNat == 0x2029 || c.toNat == 0x202f ||
  c.toNat == 0x205f || c.toNat == 0x3000 || c.toNat == 0xfeff

/-- The character class `[/\\?%*:|"<>]` replaced by `'-'` in
`sanitizeArchiveFilename` (`server.js` line 204). -/
def isUnsafeChar (c : Char) : Bool :=
  c == '/' || c == '\\' || c == '?' || c == '%' || c == '*' ||
  c == ':' || c == '|' || c == '"' || c == '<' || c == '>'

/-- JS `String.prototype.trim` on a character list: drop leading and trailing
whitespace. -/
def jsTrimList (l : List Char) : List Char :=
  ((l.dropWhile isJsSpace).reverse.dropWhile isJsSpace).reverse

/-- JS `String.prototype.trim`. -/
def jsTrim (s : String) : String :=
  ⟨jsTrimList s.data⟩

/-- Fuel-driven worker for the global regex replace `\s+` → `' '`: each maximal
run of whitespace becomes a single space.  The fuel only makes the recursion
structural; `collapseSpaces` always supplies enough. -/
def collapseSpacesAux : Nat → List Char → List Char
  | _, [] => []
  | 0, l => l
  | fuel + 1, c :: rest =>
    if isJsSpace c then ' ' :: collapseSpacesAux fuel (rest.dropWhile isJsSpace)
    else c :: collapseSpacesAux fuel rest

/-- The global regex replace `.replace(/\s+/g, ' ')` from
`sanitizeArchiveFilename` (`server.js` line 205). -/
def collapseSpaces (l : List Char) : List Char :=
  collapseSpacesAux l.length l

/-- `sanitizeArchiveFilename` (`server.js` lines 202-207) on a character list:
replace each path-unsafe character by `'-'`, collapse whitespace runs to a
single space, then trim. -/
def sanitizeList (l : List Char) : List Char :=
  jsTrimList (collapseSpaces (l.map (fun c => if isUnsafeChar c then '-' else c)))

/-- `sanitizeArchiveFilename` (`server.js` lines 202-207). -/
def sanitizeArchiveFilename (s : String) : String :=
  ⟨sanitizeList s.data⟩

theorem length_dropWhile_le (p : Char → Bool) (l : List Char) :
    (l.dropWhile p).length ≤ l.length := by
  induction l with
  | nil => simp
  | cons a l ih =>
    rw [List.dropWhile_cons]
    split
    · exact Nat.le_trans ih (Nat.le_succ _)
    · exact Nat.le_refl _

theorem collapseSpacesAux_congr (f₁ : Nat) : ∀ (f₂ : Nat) (l : List Char),
    l.length ≤ f₁ → l.length ≤ f₂ → collapseSpacesAux f₁ l = collapseSpacesAux f₂ l := by
  induction f₁ with
  | zero =>
    intro f₂ l h₁ _
    have hl : l = [] := List.length_eq_zero.mp (Nat.le_zero.mp h₁)
    subst hl
    cases f₂ <;> rfl
  | succ f ih =>
    intro f₂ l h₁ h₂
    cases l with
    | nil => cases f₂ <;> rfl
    | cons c rest =>
      cases f₂ with
      | zero => simp at h₂
      | succ g =>
        simp only [collapseSpacesAux]
        have hr : rest.length ≤ f := by simpa using h₁
        have hg : rest.length ≤ g := by simpa using h₂
        split
        · exact congrArg (' ' :: ·)
            (ih g _ (Nat.le_trans (length_dropWhile_le _ _) hr)
              (Nat.le_trans (length_dropWhile_le _ _) hg))
        · exact congrArg (c :: ·) (ih g rest hr hg)

theorem collapseSpaces_cons (c : Char) (rest : List Char) :
    collapseSpaces (c :: rest) =
      if isJsSpace c then ' ' :: collapseSpaces (rest.dropWhile isJsSpace)
      else c :: collapseSpaces rest := by
  show collapseSpacesAux (rest.length + 1) (c :: rest) = _
  simp only [collapseSpacesAux]
  split
  · exact congrArg (' ' :: ·)
      (collapseSpacesAux_congr _ _ _ (Nat.le_trans (length_dropWhile_le _ _) (Nat.le_refl _))
        (Nat.le_refl _))
  · rfl

theorem dropWhile_head_not (p : Char → Bool) (l : List Char) :
    ∀ c, (l.dropWhile p).head? = some c → p c = false := by
  induction l with
  | nil => intro c h; simp at h
  | cons a l ih =>
    intro c h
    rcases hp : p a with _ | _
    · rw [List.dropWhile_cons_of_neg (by simp [hp])] at h
      simp only [List.head?_cons, Option.some.injEq] at h
      exact h ▸ hp
    · rw [List.dropWhile_cons_of_pos hp] at h
      exact ih c h

theorem collapseSpaces_head_not_space (m : List Char)
    (hm : ∀ c, m.head? = some c → isJsSpace c = false) :
    ∀ c, (collapseSpaces m).head? = some c → isJsSpace c = false := by
  cases m with
  | nil => intro c h; simp [collapseSpaces, collapseSpacesAux] at h
  | cons d m' =>
    intro c h
    have hd : isJsSpace d = false := hm d rfl
    rw [collapseSpaces_cons, if_neg (by simp [hd])] at h
    simp only [List.head?_cons, Option.some.injEq] at h
    exact h ▸ hd

/-- Canonical whitespace shape: every whitespace character is the plain space
`' '` and no two adjacent characters are both whitespace. -/
def wsCanon (l : List Char) : Prop :=
  (∀ c ∈ l, isJsSpace c = true → c = ' ') ∧
  l.Chain' (fun a b => ¬(isJsSpace a = true ∧ isJsSpace b = true))

theorem collapseSpaces_canon : ∀ (n : Nat) (l : List Char), l.length ≤ n →
    wsCanon (collapseSpaces l) := by
  intro n
  induction n with
  | zero =>
    intro l h
    have hl : l = [] := List.length_eq_zero.mp (Nat.le_zero.mp h)
    subst hl
    exact ⟨by intro c hc; simp [collapseSpaces, collapseSpacesAux] at hc, List.chain'_nil⟩
  | succ n ih =>
    intro l h
    cases l with
    | nil => exact ⟨by intro c hc; simp [collapseSpaces, collapseSpacesAux] at hc, List.chain'_nil⟩
    | cons c rest =>
      have hr : rest.length ≤ n := by simpa using h
      rw [collapseSpaces_cons]
      rcases hc : isJsSpace c with _ | _
      · rw [if_neg (by simp [hc])]
        obtain ⟨ihMem, ihChain⟩ := ih rest hr
        refine ⟨?_, ?_⟩
        · intro x hx hxs
          rcases List.mem_cons.mp hx with h1 | h2
          · subst h1; rw [hc] at hxs; exact absurd hxs (by simp)
          · exact ihMem x h2 hxs
        · rw [List.chain'_cons']
          exact ⟨fun y _ hcontra => by rw [hc] at hcontra; exact absurd hcontra.1 (by simp),
            ihChain⟩
      · rw [if_pos rfl]
        have hdrop : (rest.dropWhile isJsSpace).length ≤ n :=
          Nat.le_trans (length_dropWhile_le _ _) hr
        obtain ⟨ihMem, ihChain⟩ := ih _ hdrop
        refine ⟨?_, ?_⟩
        · intro x hx hxs
          rcases List.mem_cons.mp hx with h1 | h2
          · exact h1
          · exact ihMem x h2 hxs
        · rw [List.chain'_cons']
          refine ⟨?_, ihChain⟩
          intro y hy hcontra
          have hyns : isJsSpace y = false :=
            collapseSpaces_head_not_space _ (dropWhile_head_not isJsSpace rest) y hy
          rw [hyns] at hcontra
          exact absurd hcontra.2 (by simp)

theorem collapseSpaces_of_canon : ∀ (n : Nat) (l : List Char), l.length ≤ n →
    wsCanon l → collapseSpaces l = l := by
  intro n
  induction n with
  | zero =>
    intro l h _
    have hl : l = [] := List.length_eq_zero.mp (Nat.le_zero.mp h)
    subst hl; rfl
  | succ n ih =>
    intro l h hcanon
    cases l with
    | nil => rfl
    | cons c rest =>
      have hr : rest.length ≤ n := by simpa using h
      obtain ⟨hmem, hchain⟩ := hcanon
      rw [List.chain'_cons'] at hchain
      have hcanonRest : wsCanon rest :=
        ⟨fun x hx => hmem x (List.mem_cons_of_mem _ hx), hchain.2⟩
      rw [collapseSpaces_cons]
      rcases hc : isJsSpace c with _ | _
      · rw [if_neg (by simp [hc]), ih rest hr hcanonRest]
      · rw [if_pos rfl]
        have hceq : c = ' ' := hmem c (List.mem_cons_self _ _) hc
        have hdrop : rest.dropWhile isJsSpace = rest := by
          cases rest with
          | nil => rfl
          | cons d rest' =>
            have hd : isJsSpace d = false := by
              rcases Bool.eq_false_or_eq_true (isJsSpace d) with hb | hb
              · exact absurd ⟨hc, hb⟩ (hchain.1 d (by simp))
              · exact hb
            rw [List.dropWhile_cons_of_neg (by simp [hd])]
        rw [hdrop, ih rest hr hcanonRest, hceq]

theorem wsCanon_of_suffix {l l' : List Char} (h : l' <:+ l) (hc : wsCanon l) : wsCanon l' :=
  ⟨fun x hx => hc.1 x (h.sublist.mem hx), hc.2.suffix h⟩

theorem wsCanon_reverse {l : List Char} (hc : wsCanon l) : wsCanon l.reverse := by
  refine ⟨fun x hx => hc.1 x (List.mem_reverse.mp hx), ?_⟩
  rw [List.chain'_reverse]
  exact hc.2.imp (fun a b hab hcontra => hab ⟨hcontra.2, hcontra.1⟩)

theorem wsCanon_jsTrimList {l : List Char} (hc : wsCanon l) : wsCanon (jsTrimList l) :=
  wsCanon_reverse
    (wsCanon_of_suffix (List.dropWhile_suffix _)
      (wsCanon_reverse (wsCanon_of_suffix (List.dropWhile_suffix _) hc)))

theorem dropWhile_eq_self_of_head (p : Char → Bool) (l : List Char)
    (h : ∀ c, l.head? = some c → p c = false) : l.dropWhile p = l := by
  cases l with
  | nil => rfl
  | cons a l' =>
    have ha := h a rfl
    rw [List.dropWhile_cons_of_neg (by simp [ha])]

theorem dropWhile_dropWhile (p : Char → Bool) (l : List Char) :
    (l.dropWhile p).dropWhile p = l.dropWhile p :=
  dropWhile_eq_self_of_head p _ (dropWhile_head_not p l)

theorem jsTrimList_head_not_space (l : List Char) :
    ∀ c, (jsTrimList l).head? = some c → isJsSpace c = false := by
  intro c h
  unfold jsTrimList at h
  rw [List.head?_reverse] at h
  obtain ⟨t, ht⟩ :=
    List.dropWhile_suffix (l := (l.dropWhile isJsSpace).reverse) (p := isJsSpace)
  have h2 : (l.dropWhile isJsSpace).reverse.getLast? = some c := by
    rw [← ht, List.getLast?_append, h]; rfl
  rw [List.getLast?_reverse] at h2
  exact dropWhile_head_not isJsSpace l c h2

theorem jsTrimList_idem (l : List Char) : jsTrimList (jsTrimList l) = jsTrimList l := by
  show (((jsTrimList l).dropWhile isJsSpace).reverse.dropWhile isJsSpace).reverse = _
  rw [dropWhile_eq_self_of_head _ _ (jsTrimList_head_not_space l)]
  show (((((l.dropWhile isJsSpace).reverse.dropWhile isJsSpace).reverse).reverse.dropWhile
    isJsSpace)).reverse = _
  rw [List.reverse_reverse, dropWhile_dropWhile]
  rfl

theorem mem_collapseSpaces : ∀ (n : Nat) (l : List Char), l.length ≤ n →
    ∀ c ∈ collapseSpaces l, c = ' ' ∨ c ∈ l := by
  intro n
  induction n with
  | zero =>
    intro l h c hc
    have hl : l = [] := List.length_eq_zero.mp (Nat.le_zero.mp h)
    subst hl
    simp [collapseSpaces, collapseSpacesAux] at hc
  | succ n ih =>
    intro l h c hc
    cases l with
    | nil => simp [collapseSpaces, collapseSpacesAux] at hc
    | cons a rest =>
      have hr : rest.length ≤ n := by simpa using h
      rw [collapseSpaces_cons] at hc
      rcases ha : isJsSpace a with _ | _
      · rw [if_neg (by simp [ha])] at hc
        rcases List.mem_cons.mp hc with h1 | h2
        · exact Or.inr (h1 ▸ List.mem_cons_self _ _)
        · rcases ih rest hr c h2 with h3 | h3
          · exact Or.inl h3
          · exact Or.inr (List.mem_cons_of_mem _ h3)
      · rw [if_pos ha] at hc
        rcases List.mem_cons.mp hc with h1 | h2
        · exact Or.inl h1
        · rcases ih _ (Nat.le_trans (length_dropWhile_le _ _) hr) c h2 with h3 | h3
          · exact Or.inl h3
          · exact Or.inr (List.mem_cons_of_mem _ ((List.dropWhile_sublist _).mem h3))

theorem mem_jsTrimList {c : Char} {l : List Char} (h : c ∈ jsTrimList l) : c ∈ l := by
  unfold jsTrimList at h
  rw [List.mem_reverse] at h
  have h2 := (List.dropWhile_sublist _).mem h
  rw [List.mem_reverse] at h2
  exact (List.dropWhile_sublist _).mem h2

theorem map_id_of_eq {f : Char → Char} : ∀ (l : List Char), (∀ c ∈ l, f c = c) → l.map f = l := by
  intro l h
  induction l with
  | nil => rfl
  | cons a l ih =>
    simp only [List.map_cons]
    rw [h a (List.mem_cons_self _ _), ih (fun c hc => h c (List.mem_cons_of_mem _ hc))]

theorem sanitizeList_chars (l : List Char) :
    ∀ c ∈ sanitizeList l, isUnsafeChar c = false := by
  intro c hc
  have h1 := mem_jsTrimList hc
  rcases mem_collapseSpaces _ _ (Nat.le_refl _) c h1 with h | h
  · subst h; decide
  · obtain ⟨d, _, hmap⟩ := List.mem_map.mp h
    rcases hu : isUnsafeChar d with _ | _
    · rw [if_neg (by simp [hu])] at hmap; exact hmap ▸ hu
    · rw [if_pos hu] at hmap; subst hmap; decide

theorem sanitizeList_idem (l : List Char) : sanitizeList (sanitizeList l) = sanitizeList l := by
  have hmap : (sanitizeList l).map (fun c => if isUnsafeChar c then '-' else c) = sanitizeList l :=
    map_id_of_eq _ (fun c hc => by rw [if_neg (by simp [sanitizeList_chars l c hc])])
  have hcanon : wsCanon (sanitizeList l) :=
    wsCanon_jsTrimList (collapseSpaces_canon _ _ (Nat.le_refl _))
  show jsTrimList (collapseSpaces ((sanitizeList l).map _)) = sanitizeList l
  rw [hmap, collapseSpaces_of_canon _ _ (Nat.le_refl _) hcanon]
  exact jsTrimList_idem _

/-- Decimal digit character (`0`-`9`). -/
def digitChar (n : Nat) : Char :=
  if n = 0 then '0' else if n = 1 then '1' else if n = 2 then '2' else if n = 3 then '3'
  else if n = 4 then '4' else if n = 5 then '5' else if n = 6 then '6' else if n = 7 then '7'
  else if n = 8 then '8' else if n = 9 then '9' else '*'

/-- Numeric value of a decimal digit character, used to read back the number
embedded in a generated file name. -/
def digitVal (c : Char) : Nat :=
  if c = '0' then 0 else if c = '1' then 1 else if c = '2' then 2 else if c = '3' then 3
  else if c = '4' then 4 else if c = '5' then 5 else if c = '6' then 6 else if c = '7' then 7
  else if c = '8' then 8 else 9

/-- Fuel-driven worker producing the decimal representation of a natural
number, most significant digit first (JS `String(n)` or template interpolation
of a nonnegative integer). -/
def decDigitsAux : Nat → Nat → List Char
  | 0, _ => []
  | fuel + 1, n =>
    if n < 10 then [digitChar n] else decDigitsAux fuel (n / 10) ++ [digitChar (n % 10)]

/-- Decimal representation of a natural number (JS `String(n)`). -/
def decDigits (n : Nat) : List Char := decDigitsAux (n + 1) n

/-- Value of a decimal digit string, most significant digit first. -/
def decValue (l : List Char) : Nat := l.foldl (fun a c => 10 * a + digitVal c) 0

/-- JS `String.prototype.padStart(n, c)`. -/
def padStartList (l : List Char) (n : Nat) (c : Char) : List Char :=
  List.replicate (n - l.length) c ++ l

/-- Node `path.extname` (posix) on a character list: the extension of the last
path segment, taken from its final dot; empty when the segment has no dot,
when its only dot is the leading character (dotfiles), or when the segment is
exactly `..`. -/
def extname (l : List Char) : List Char :=
  let revNoSlash := l.reverse.dropWhile (fun c => c == '/')
  let revBase := revNoSlash.takeWhile (fun c => !(c == '/'))
  let base := revBase.reverse
  if base = ['.', '.'] then []
  else
    let afterLastDot := revBase.takeWhile (fun c => !(c == '.'))
    if afterLastDot.length = revBase.length then []
    else if afterLastDot.length + 1 = revBase.length then []
    else base.drop (base.length - afterLastDot.length - 1)

/-- `storageFilename` (`server.js` lines 88-92): the stored name is
`Date.now()` and a random draw joined by `'-'`, followed by the extension of
the user-supplied original name.  `now` and `rand` stand for the values of
`Date.now()` and `Math.round(Math.random() * 1e9)`. -/
def storageFilename (now rand : Nat) (originalname : List Char) : List Char :=
  decDigits now ++ '-' :: (decDigits rand ++ extname originalname)

/-- Staged archive member name (`server.js` lines 555-556 and 663-664): the
zero-padded record id, a dash, and the sanitized original name — or the
sanitized fallback `<kind>-<id><ext>` when the original name is empty
(`photo.original_name || fallbackName`). -/
def stagedNameList (kind : List Char) (rid : Nat) (originalName fname : List Char) : List Char :=
  let fallbackName := kind ++ '-' :: (decDigits rid ++ extname fname)
  padStartList (decDigits rid) 4 '0' ++
    '-' :: sanitizeList (if originalName.isEmpty then fallbackName else originalName)

/-- Hardcoded photo limits (`server.js` lines 13-14). -/
def MAX_PHOTOS_PER_PERSON : Int := 10

/-- Hardcoded global photo ceiling (`server.js` line 14). -/
def MAX_TOTAL_PHOTOS : Int := 600

/-- `Math.max(0, uploaderLimit - uploaderCount)` (`server.js` line 280). -/
def remainingForUploader (uploaderLimit uploaderCount : Int) : Int :=
  max 0 (uploaderLimit - uploaderCount)

/-- `Math.max(0, globalLimit - totalCount)` (`server.js` line 281). -/
def remainingGlobal (globalLimit totalCount : Int) : Int :=
  max 0 (globalLimit - totalCount)

/-- `Math.min(remainingForUploader, remainingGlobal)` (`server.js` line 282). -/
def allowedNow (uploaderCount uploaderLimit totalCount globalLimit : Int) : Int :=
  min (remainingForUploader uploaderLimit uploaderCount)
    (remainingGlobal globalLimit totalCount)

/-- The admission partition (`server.js` lines 280-295 and 342-357): when no
capacity remains the whole batch is rejected; otherwise the first `allowedNow`
files are accepted (`slice(0, allowedNow)`) and the rest rejected
(`slice(allowedNow)`). -/
def admitBatch {F : Type} (files : List F)
    (uploaderCount uploaderLimit totalCount globalLimit : Int) : List F × List F :=
  let a := allowedNow uploaderCount uploaderLimit totalCount globalLimit
  if a ≤ 0 then ([], files) else (files.take a.toNat, files.drop a.toNat)

/-- Photo rejection reason when the whole batch is refused
(`server.js` lines 286-289). -/
def photoRejectReason (remGlobal : Int) : String :=
  if remGlobal ≤ 0 then "Upload limit reached: this gallery is full."
  else "You have already uploaded your maximum of 10 photos."

/-- Video rejection reason when the whole batch is refused
(`server.js` lines 348-351); the per-person limit is interpolated. -/
def videoRejectReason (remGlobal maxVideosPerPerson : Int) : String :=
  if remGlobal ≤ 0 then "Video upload limit reached: this gallery is full."
  else "You have already uploaded your maximum of " ++ toString maxVideosPerPerson ++ " videos."

/-- A file already written by multer when the route handler runs: the
generated stored name plus the untrusted client-supplied metadata. -/
structure UploadedFile where
  filename : String
  originalname : String
  mimetype : String
  size : Nat
deriving DecidableEq, Repr

/-- A row of the `uploaders` table (`server.js` lines 39-44). -/
structure Uploader where
  id : Nat
  name : String
  normalized_name : String
deriving DecidableEq, Repr

/-- A row of the `photos` or `videos` table (`server.js` lines 46-66). -/
structure MediaRow where
  id : Nat
  uploader_id : Nat
  filename : String
  original_name : String
  mime_type : String
  size : Nat
deriving DecidableEq, Repr

/-- The SQLite database: the three tables plus the AUTOINCREMENT counters. -/
structure Store where
  uploaders : List Uploader
  photos : List MediaRow
  videos : List MediaRow
  nextUploaderId : Nat
  nextPhotoId : Nat
  nextVideoId : Nat
deriving DecidableEq, Repr

/-- `normalizeName` (`server.js` lines 131-133): trim then lower-case. -/
def normalizeName (name : String) : String :=
  ⟨(jsTrimList name.data).map Char.toLower⟩

/-- `getOrCreateUploader` (`server.js` lines 135-153): look the trimmed
lower-cased name up in `uploaders`; insert a fresh row when absent. -/
def getOrCreateUploader (s : Store) (name : String) : Uploader × Store :=
  let normalized := normalizeName name
  match s.uploaders.find? (fun u => u.normalized_name == normalized) with
  | some uploader => (uploader, s)
  | none =>
    let uploader : Uploader :=
      { id := s.nextUploaderId, name := jsTrim name, normalized_name := normalized }
    (uploader,
      { s with
        uploaders := s.uploaders ++ [uploader]
        nextUploaderId := s.nextUploaderId + 1 })

/-- `getUploaderPhotoCount` (`server.js` lines 155-158). -/
def getUploaderPhotoCount (s : Store) (uploaderId : Nat) : Nat :=
  (s.photos.filter (fun p => p.uploader_id == uploaderId)).length

/-- `getTotalPhotoCount` (`server.js` lines 160-163). -/
def getTotalPhotoCount (s : Store) : Nat := s.photos.length

/-- `getUploaderVideoCount` (`server.js` lines 165-168). -/
def getUploaderVideoCount (s : Store) (uploaderId : Nat) : Nat :=
  (s.videos.filter (fun v => v.uploader_id == uploaderId)).length

/-- `getTotalVideoCount` (`server.js` lines 170-173). -/
def getTotalVideoCount (s : Store) : Nat := s.videos.length

/-- Rows built by the insert loop inside the transaction (`server.js`
lines 301-305): one row per accepted file, ids assigned by AUTOINCREMENT. -/
def mkRows (uploaderId startId : Nat) : List UploadedFile → List MediaRow
  | [] => []
  | f :: fs =>
    { id := startId, uploader_id := uploaderId, filename := f.filename,
      original_name := f.originalname, mime_type := f.mimetype, size := f.size } ::
      mkRows uploaderId (startId + 1) fs

/-- Sequential inserts inside one better-sqlite3 transaction; `fails`
abstracts the SQLite constraint checks.  A failing insert throws, so the
result is `none` and the caller sees the table unchanged (rollback). -/
def insertAll (table : List MediaRow) (fails : MediaRow → Bool) :
    List MediaRow → Option (List MediaRow)
  | [] => some table
  | r :: rs => if fails r then none else insertAll (table ++ [r]) fails rs

/-- `safeUnlink` (`server.js` lines 186-192) applied to each file of a batch:
remove the files from the disk, ignoring files that are not present. -/
def unlinkAll (disk : List String) (fs : List UploadedFile) : List String :=
  fs.foldl (fun d f => d.filter (fun g => !(g == f.filename))) disk

/-- Observable outcome of an upload request: the database, the upload
directory, and the flash message carried by the redirect. -/
structure UploadOutcome where
  store : Store
  disk : List String
  error : Option String
  message : Option String
deriving Repr

/-- Success message with singular/plural wording (`server.js` lines 312-315). -/
def photoUploadMessage (uploaderName : String) (uploadedCount limitedCount : Nat) : String :=
  let base := "Thanks " ++ uploaderName ++ "! Uploaded " ++ toString uploadedCount ++
    " photo" ++ (if uploadedCount = 1 then "" else "s") ++ "."
  if 0 < limitedCount then
    base ++ " " ++ toString limitedCount ++ " photo" ++
      (if limitedCount = 1 then " was" else "s were") ++ " skipped due to upload limits."
  else base

/-- Success message with singular/plural wording (`server.js` lines 374-377). -/
def videoUploadMessage (uploaderName : String) (uploadedCount limitedCount : Nat) : String :=
  let base := "Thanks " ++ uploaderName ++ "! Uploaded " ++ toString uploadedCount ++
    " video" ++ (if uploadedCount = 1 then "" else "s") ++ "."
  if 0 < limitedCount then
    base ++ " " ++ toString limitedCount ++ " video" ++
      (if limitedCount = 1 then " was" else "s were") ++ " skipped due to upload limits."
  else base

/-- The `POST /upload` handler (`server.js` lines 262-322).  `disk` is the
upload directory, which already holds the batch files written by multer;
`fails` abstracts which metadata inserts would violate a constraint (the
`catch` branch reports `error.message`, abstracted here to the fallback). -/
def postUploadPhotos (s : Store) (disk : List String) (name : String)
    (files : List UploadedFile) (fails : MediaRow → Bool) : UploadOutcome :=
  if jsTrim name = "" then
    { store := s, disk := unlinkAll disk files,
      error := some "Please provide your name.", message := none }
  else if files.isEmpty then
    { store := s, disk := disk,
      error := some "Please select at least one photo.", message := none }
  else
    let res := getOrCreateUploader s name
    let uploader := res.1
    let s1 := res.2
    let uploaderCount : Int := getUploaderPhotoCount s1 uploader.id
    let totalCount : Int := getTotalPhotoCount s1
    let a := allowedNow uploaderCount MAX_PHOTOS_PER_PERSON totalCount MAX_TOTAL_PHOTOS
    if a ≤ 0 then
      { store := s1, disk := unlinkAll disk files,
        error := some (photoRejectReason (remainingGlobal MAX_TOTAL_PHOTOS totalCount)),
        message := none }
    else
      let acceptedFiles := files.take a.toNat
      let rejectedFiles := files.drop a.toNat
      let disk1 := unlinkAll disk rejectedFiles
      let rows := mkRows uploader.id s1.nextPhotoId acceptedFiles
      match insertAll s1.photos fails rows with
      | some newPhotos =>
        { store :=
            { s1 with
              photos := newPhotos
              nextPhotoId := s1.nextPhotoId + rows.length },
          disk := disk1, error := none,
          message := some (photoUploadMessage uploader.name acceptedFiles.length
            rejectedFiles.length) }
      | none =>
        { store := s1, disk := unlinkAll disk1 files,
          error := some "Upload failed.", message := none }

/-- The `POST /upload/videos` handler (`server.js` lines 324-384), with the
environment-derived limits passed in as values. -/
def postUploadVideos (maxVideosPerPerson maxTotalVideos : Int) (s : Store)
    (disk : List String) (name : String) (files : List UploadedFile)
    (fails : MediaRow → Bool) : UploadOutcome :=
  if jsTrim name = "" then
    { store := s, disk := unlinkAll disk files,
      error := some "Please provide your name.", message := none }
  else if files.isEmpty then
    { store := s, disk := disk,
      error := some "Please select at least one video.", message := none }
  else
    let res := getOrCreateUploader s name
    let uploader := res.1
    let s1 := res.2
    let uploaderCount : Int := getUploaderVideoCount s1 uploader.id
    let totalCount : Int := getTotalVideoCount s1
    let a := allowedNow uploaderCount maxVideosPerPerson totalCount maxTotalVideos
    if a ≤ 0 then
      { store := s1, disk := unlinkAll disk files,
        error := some (videoRejectReason (remainingGlobal maxTotalVideos totalCount)
          maxVideosPerPerson),
        message := none }
    else
      let acceptedFiles := files.take a.toNat
      let rejectedFiles := files.drop a.toNat
      let disk1 := unlinkAll disk rejectedFiles
      let rows := mkRows uploader.id s1.nextVideoId acceptedFiles
      match insertAll s1.videos fails rows with
      | some newVideos =>
        { store :=
            { s1 with
              videos := newVideos
              nextVideoId := s1.nextVideoId + rows.length },
          disk := disk1, error := none,
          message := some (videoUploadMessage uploader.name acceptedFiles.length
            rejectedFiles.length) }
      | none =>
        { store := s1, disk := unlinkAll disk1 files,
          error := some "Upload failed.", message := none }

/-- Whether any media row of either kind references the uploader — the
`NOT IN (SELECT ... UNION SELECT ...)` test of `cleanupOrphanUploaders`. -/
def referencedByMedia (s : Store) (uploaderId : Nat) : Bool :=
  s.photos.any (fun p => p.uploader_id == uploaderId) ||
  s.videos.any (fun v => v.uploader_id == uploaderId)

/-- `cleanupOrphanUploaders` (`server.js` lines 209-220). -/
def cleanupOrphanUploaders (s : Store) : Store :=
  { s with uploaders := s.uploaders.filter (fun u => referencedByMedia s u.id) }

/-- The `POST /admin/photo/:id/delete` handler (`server.js` lines 499-515)
after id validation: delete the row, best-effort unlink the file,
garbage-collect orphan uploaders; a missing row only reports an error. -/
def deletePhoto (s : Store) (disk : List String) (photoId : Nat) : Store × List String :=
  match s.photos.find? (fun p => p.id == photoId) with
  | none => (s, disk)
  | some photo =>
    let s1 := { s with photos := s.photos.filter (fun p => !(p.id == photoId)) }
    (cleanupOrphanUploaders s1, disk.filter (fun g => !(g == photo.filename)))

/-- The `POST /admin/video/:id/delete` handler (`server.js` lines 607-623). -/
def deleteVideo (s : Store) (disk : List String) (videoId : Nat) : Store × List String :=
  match s.videos.find? (fun v => v.id == videoId) with
  | none => (s, disk)
  | some video =>
    let s1 := { s with videos := s.videos.filter (fun v => !(v.id == videoId)) }
    (cleanupOrphanUploaders s1, disk.filter (fun g => !(g == video.filename)))

/-- The `POST /admin/photos/delete-all` handler (`server.js` lines 517-527). -/
def deleteAllPhotos (s : Store) (disk : List String) : Store × List String :=
  let disk1 := s.photos.foldl (fun d p => d.filter (fun g => !(g == p.filename))) disk
  (cleanupOrphanUploaders { s with photos := [] }, disk1)

/-- The `POST /admin/videos/delete-all` handler (`server.js` lines 625-635). -/
def deleteAllVideos (s : Store) (disk : List String) : Store × List String :=
  let disk1 := s.videos.foldl (fun d v => d.filter (fun g => !(g == v.filename))) disk
  (cleanupOrphanUploaders { s with videos := [] }, disk1)

/-- Observable outcome of an archive export request. -/
structure ExportResult where
  error : Option String
  tempDirCreated : Bool
  tempDirExists : Bool
  archiveCreated : Bool
  archiveExists : Bool
  staged : List String
  downloaded : Bool
deriving Repr

/-- The bulk download routes (`server.js` lines 529-581 for photos and
637-689 for videos), over the records returned by the newest-first query.
`disk` is the upload directory; `zipOk` abstracts whether the external `zip`
invocation succeeds.  Missing files are skipped in the copy pass; the scratch
directory and the archive file are removed on every exit path (the download
callback or the catch block). -/
def exportMedia (records : List MediaRow) (disk : List String) (zipOk : Bool)
    (kind : String) (noneMsg missingMsg zipFailMsg : String) : ExportResult :=
  if records.isEmpty then
    { error := some noneMsg, tempDirCreated := false, tempDirExists := false,
      archiveCreated := false, archiveExists := false, staged := [], downloaded := false }
  else
    let staged := (records.filter (fun r => disk.contains r.filename)).map
      (fun r => (⟨stagedNameList kind.data r.id r.original_name.data r.filename.data⟩ : String))
    if staged.isEmpty then
      { error := some missingMsg, tempDirCreated := true, tempDirExists := false,
        archiveCreated := false, archiveExists := false, staged := staged, downloaded := false }
    else if zipOk then
      { error := none, tempDirCreated := true, tempDirExists := false,
        archiveCreated := true, archiveExists := false, staged := staged, downloaded := true }
    else
      { error := some zipFailMsg, tempDirCreated := true, tempDirExists := false,
        archiveCreated := false, archiveExists := false, staged := staged, downloaded := false }

/-- `GET /admin/photos/download` (`server.js` lines 529-581). -/
def downloadPhotos (records : List MediaRow) (disk : List String) (zipOk : Bool) : ExportResult :=
  exportMedia records disk zipOk "photo" "No photos to download."
    "Photo files are missing on disk." "Could not create ZIP archive on this server."

/-- `GET /admin/videos/download` (`server.js` lines 637-689). -/
def downloadVideos (records : List MediaRow) (disk : List String) (zipOk : Bool) : ExportResult :=
  exportMedia records disk zipOk "video" "No videos to download."
    "Video files are missing on disk." "Could not create ZIP archive on this server."

/-- Decimal value of a digit string, `none` when empty or not all digits. -/
def decValueOpt (l : List Char) : Option Nat :=
  if l.isEmpty then none
  else if l.all Char.isDigit then some (decValue l) else none

/-- JS `Number()` on a string, restricted to optional-sign decimal integers:
`none` stands for `NaN`.  Whitespace is trimmed and a blank string gives 0 as
in JS; fractional, exponent and hex forms — which never occur in this
configuration space — are mapped to `none` like other non-numeric strings. -/
def jsNumberOfString (s : String) : Option Int :=
  let t := jsTrimList s.data
  if t.isEmpty then some 0
  else
    match t with
    | '-' :: ds => (decValueOpt ds).map (fun n => -(n : Int))
    | '+' :: ds => (decValueOpt ds).map (fun n => (n : Int))
    | ds => (decValueOpt ds).map (fun n => (n : Int))

/-- Effective numeric configuration value, mirroring
`Number(process.env.X || default)` (`server.js` lines 15-17): an absent
variable (`none`) or an empty string is falsy, so `Number` sees the default;
any other string goes through `Number`.  `none` in the result is `NaN`. -/
def envNumberConfig (envVar : Option String) (dflt : Int) : Option Int :=
  match envVar with
  | none => some dflt
  | some s => if s = "" then some dflt else jsNumberOfString s

/-- C1: for every upload batch the number of admitted files equals
`min(max(0, uploaderLimit - uploaderCount), max(0, globalLimit - totalCount))`
capped at the batch size, the accepted files are exactly the first
`allowedNow` files of the batch in submission order, the rejected files are
exactly the remainder in order, and accepted plus rejected counts equal the
batch size. -/
theorem admission_partition {F : Type} (files : List F)
    (uploaderCount uploaderLimit totalCount globalLimit : Int) :
    allowedNow uploaderCount uploaderLimit totalCount globalLimit =
      min (max 0 (uploaderLimit - uploaderCount)) (max 0 (globalLimit - totalCount)) ∧
    (admitBatch files uploaderCount uploaderLimit totalCount globalLimit).1.length =
      min (allowedNow uploaderCount uploaderLimit totalCount globalLimit).toNat
        files.length ∧
    (admitBatch files uploaderCount uploaderLimit totalCount globalLimit).1 =
      files.take (allowedNow uploaderCount uploaderLimit totalCount globalLimit).toNat ∧
    (admitBatch files uploaderCount uploaderLimit totalCount globalLimit).2 =
      files.drop (allowedNow uploaderCount uploaderLimit totalCount globalLimit).toNat ∧
    (admitBatch files uploaderCount uploaderLimit totalCount globalLimit).1.length +
      (admitBatch files uploaderCount uploaderLimit totalCount globalLimit).2.length =
      files.length ∧
    (admitBatch files uploaderCount uploaderLimit totalCount globalLimit).1 ++
      (admitBatch files uploaderCount uploaderLimit totalCount globalLimit).2 = files := by
  have ha0 : 0 ≤ allowedNow uploaderCount uploaderLimit totalCount globalLimit :=
    le_min (le_max_left _ _) (le_max_left _ _)
  have hp : admitBatch files uploaderCount uploaderLimit totalCount globalLimit =
      (files.take (allowedNow uploaderCount uploaderLimit totalCount globalLimit).toNat,
       files.drop (allowedNow uploaderCount uploaderLimit totalCount globalLimit).toNat) := by
    show (if allowedNow uploaderCount uploaderLimit totalCount globalLimit ≤ 0 then
        (([] : List F), files)
      else (files.take (allowedNow uploaderCount uploaderLimit totalCount globalLimit).toNat,
        files.drop (allowedNow uploaderCount uploaderLimit totalCount globalLimit).toNat)) = _
    split
    · rename_i hle
      have haz : allowedNow uploaderCount uploaderLimit totalCount globalLimit = 0 :=
        le_antisymm hle ha0
      rw [haz]
      simp
    · rfl
  have h5 : (admitBatch files uploaderCount uploaderLimit totalCount globalLimit).1 ++
      (admitBatch files uploaderCount uploaderLimit totalCount globalLimit).2 = files := by
    rw [hp]
    exact List.take_append_drop _ _
  refine ⟨rfl, ?_, ?_, ?_, ?_, h5⟩
  · rw [hp]; exact List.length_take _ _
  · rw [hp]
  · rw [hp]
  · have := congrArg List.length h5
    simpa using this

/-- C3: whenever a batch is fully rejected, the reported error is the
gallery-full message exactly when the remaining global capacity is at most
zero, and otherwise is the per-person maximum message naming the per-person
limit; this holds for both the photo and the video route. -/
theorem reject_reason_selection (remGlobal maxVideosPerPerson maxTotalVideos : Int)
    (s : Store) (disk : List String) (name : String) (files : List UploadedFile)
    (fails : MediaRow → Bool)
    (hname : ¬ jsTrim name = "") (hfiles : ¬ files.isEmpty = true) :
    (photoRejectReason remGlobal = "Upload limit reached: this gallery is full." ↔
      remGlobal ≤ 0) ∧
    (¬ remGlobal ≤ 0 → photoRejectReason remGlobal =
      "You have already uploaded your maximum of " ++ toString MAX_PHOTOS_PER_PERSON ++
        " photos.") ∧
    (videoRejectReason remGlobal maxVideosPerPerson =
        "Video upload limit reached: this gallery is full." ↔ remGlobal ≤ 0) ∧
    (¬ remGlobal ≤ 0 → videoRejectReason remGlobal maxVideosPerPerson =
      "You have already uploaded your maximum of " ++ toString maxVideosPerPerson ++
        " videos.") ∧
    (allowedNow (getUploaderPhotoCount (getOrCreateUploader s name).2
          (getOrCreateUploader s name).1.id) MAX_PHOTOS_PER_PERSON
        (getTotalPhotoCount (getOrCreateUploader s name).2) MAX_TOTAL_PHOTOS ≤ 0 →
      (postUploadPhotos s disk name files fails).error =
        some (photoRejectReason (remainingGlobal MAX_TOTAL_PHOTOS
          (getTotalPhotoCount (getOrCreateUploader s name).2)))) ∧
    (allowedNow (getUploaderVideoCount (getOrCreateUploader s name).2
          (getOrCreateUploader s name).1.id) maxVideosPerPerson
        (getTotalVideoCount (getOrCreateUploader s name).2) maxTotalVideos ≤ 0 →
      (postUploadVideos maxVideosPerPerson maxTotalVideos s disk name files fails).error =
        some (videoRejectReason (remainingGlobal maxTotalVideos
          (getTotalVideoCount (getOrCreateUploader s name).2)) maxVideosPerPerson)) := by
  refine ⟨?_, ?_, ?_, ?_, ?_, ?_⟩
  · unfold photoRejectReason
    by_cases h : remGlobal ≤ 0
    · rw [if_pos h]; exact iff_of_true rfl h
    · rw [if_neg h]; exact iff_of_false (by decide) h
  · intro h; unfold photoRejectReason; rw [if_neg h]; decide
  · unfold videoRejectReason
    by_cases h : remGlobal ≤ 0
    · rw [if_pos h]; exact iff_of_true rfl h
    · rw [if_neg h]
      refine iff_of_false ?_ h
      intro heq
      have h3 : ("You have already uploaded your maximum of " ++ toString maxVideosPerPerson ++
          " videos.").data.head? = some 'Y' := by
        rw [String.data_append, String.data_append, List.append_assoc]
        rfl
      rw [heq] at h3
      exact absurd h3 (by decide)
  · intro h; unfold videoRejectReason; rw [if_neg h]
  · intro h
    simp only [postUploadPhotos]
    rw [if_neg hname, if_neg hfiles, if_pos h]
  · intro h
    simp only [postUploadVideos]
    rw [if_neg hname, if_neg hfiles, if_pos h]

theorem getOrCreateUploader_of_found (s : Store) (name : String) (u : Uploader)
    (hfind : s.uploaders.find? (fun v => v.normalized_name == normalizeName name) = some u) :
    getOrCreateUploader s name = (u, s) := by
  simp only [getOrCreateUploader]
  rw [hfind]

theorem getOrCreateUploader_of_notFound (s : Store) (name : String)
    (hfind : s.uploaders.find? (fun v => v.normalized_name == normalizeName name) = none) :
    getOrCreateUploader s name =
      (({ id := s.nextUploaderId, name := jsTrim name,
          normalized_name := normalizeName name } : Uploader),
       ({ s with
          uploaders := s.uploaders ++
            [{ id := s.nextUploaderId, name := jsTrim name,
               normalized_name := normalizeName name }]
          nextUploaderId := s.nextUploaderId + 1 } : Store)) := by
  simp only [getOrCreateUploader]
  rw [hfind]

/-- C5: two display names whose normalizations agree resolve to the same
uploader row — the second submission finds exactly the row the first one used
or created and adds nothing — and a fresh uploader row is created only when no
row with that normalized name exists. -/
theorem normalized_name_unique (s : Store) (n₁ n₂ : String)
    (h : normalizeName n₁ = normalizeName n₂) :
    ((getOrCreateUploader (getOrCreateUploader s n₁).2 n₂).1 =
        (getOrCreateUploader s n₁).1 ∧
      (getOrCreateUploader (getOrCreateUploader s n₁).2 n₂).2 =
        (getOrCreateUploader s n₁).2) ∧
    ((∃ u ∈ s.uploaders, u.normalized_name = normalizeName n₁) →
      (getOrCreateUploader s n₁).2 = s) := by
  have hpred : (fun v : Uploader => v.normalized_name == normalizeName n₂) =
      (fun v : Uploader => v.normalized_name == normalizeName n₁) := by rw [h]
  constructor
  · cases hfind : s.uploaders.find? (fun v => v.normalized_name == normalizeName n₁) with
    | some u =>
      have h1 := getOrCreateUploader_of_found s n₁ u hfind
      have h2 : (getOrCreateUploader s n₁).2.uploaders.find?
          (fun v => v.normalized_name == normalizeName n₂) = some u := by
        rw [hpred, h1]
        exact hfind
      have h3 := getOrCreateUploader_of_found (getOrCreateUploader s n₁).2 n₂ u h2
      rw [h3, h1]
      exact ⟨rfl, rfl⟩
    | none =>
      have h1 := getOrCreateUploader_of_notFound s n₁ hfind
      have h2 : (getOrCreateUploader s n₁).2.uploaders.find?
          (fun v => v.normalized_name == normalizeName n₂) =
          some { id := s.nextUploaderId, name := jsTrim n₁,
                 normalized_name := normalizeName n₁ } := by
        rw [hpred, h1]
        show (s.uploaders ++
          [({ id := s.nextUploaderId, name := jsTrim n₁,
              normalized_name := normalizeName n₁ } : Uploader)]).find?
            (fun v => v.normalized_name == normalizeName n₁) = _
        rw [List.find?_append, hfind]
        show List.find? _ _ = _
        rw [List.find?_cons_of_pos _ (by exact beq_self_eq_true _)]
      have h3 := getOrCreateUploader_of_found (getOrCreateUploader s n₁).2 n₂ _ h2
      rw [h3, h1]
      exact ⟨rfl, rfl⟩
  · rintro ⟨u, hu, hnorm⟩
    cases hfind : s.uploaders.find? (fun v => v.normalized_name == normalizeName n₁) with
    | some w => rw [getOrCreateUploader_of_found s n₁ w hfind]
    | none =>
      exfalso
      exact List.find?_eq_none.mp hfind u hu (beq_iff_eq.mpr hnorm)

/-- Empty initial database. -/
def emptyStore : Store :=
  { uploaders := [], photos := [], videos := [],
    nextUploaderId := 1, nextPhotoId := 1, nextVideoId := 1 }

theorem normalized_name_unique_witness :
    (getOrCreateUploader (getOrCreateUploader emptyStore "Alice ").2 "alice").1 =
      (getOrCreateUploader emptyStore "Alice ").1 :=
  ((normalized_name_unique emptyStore "Alice " "alice" (by decide)).1).1

/-- C4: after a delete operation (delete-one with an existing id, or
delete-all, for either kind) every remaining uploader is still referenced by
some photo or video; and deleting a record that is not the uploader's last
record across both kinds preserves that uploader. -/
theorem delete_gc_uploaders (s : Store) (disk : List String) (mid : Nat) :
    ((s.photos.find? (fun p => p.id == mid)).isSome = true →
      ∀ u ∈ (deletePhoto s disk mid).1.uploaders,
        referencedByMedia (deletePhoto s disk mid).1 u.id = true) ∧
    ((s.videos.find? (fun v => v.id == mid)).isSome = true →
      ∀ u ∈ (deleteVideo s disk mid).1.uploaders,
        referencedByMedia (deleteVideo s disk mid).1 u.id = true) ∧
    (∀ u ∈ (deleteAllPhotos s disk).1.uploaders,
      referencedByMedia (deleteAllPhotos s disk).1 u.id = true) ∧
    (∀ u ∈ (deleteAllVideos s disk).1.uploaders,
      referencedByMedia (deleteAllVideos s disk).1 u.id = true) ∧
    (∀ u ∈ s.uploaders,
      ((∃ p ∈ s.photos, p.uploader_id = u.id ∧ ¬ p.id = mid) ∨
        (∃ v ∈ s.videos, v.uploader_id = u.id)) →
      u ∈ (deletePhoto s disk mid).1.uploaders) ∧
    (∀ u ∈ s.uploaders,
      ((∃ v ∈ s.videos, v.uploader_id = u.id ∧ ¬ v.id = mid) ∨
        (∃ p ∈ s.photos, p.uploader_id = u.id)) →
      u ∈ (deleteVideo s disk mid).1.uploaders) := by
  refine ⟨?_, ?_, ?_, ?_, ?_, ?_⟩
  · intro hsome u hu
    cases hfind : s.photos.find? (fun p => p.id == mid) with
    | none => rw [hfind] at hsome; simp at hsome
    | some photo =>
      unfold deletePhoto at hu ⊢
      rw [hfind] at hu ⊢
      simp only [cleanupOrphanUploaders] at hu ⊢
      exact (List.mem_filter.mp hu).2
  · intro hsome u hu
    cases hfind : s.videos.find? (fun v => v.id == mid) with
    | none => rw [hfind] at hsome; simp at hsome
    | some video =>
      unfold deleteVideo at hu ⊢
      rw [hfind] at hu ⊢
      simp only [cleanupOrphanUploaders] at hu ⊢
      exact (List.mem_filter.mp hu).2
  · intro u hu
    unfold deleteAllPhotos at hu ⊢
    simp only [cleanupOrphanUploaders] at hu ⊢
    exact (List.mem_filter.mp hu).2
  · intro u hu
    unfold deleteAllVideos at hu ⊢
    simp only [cleanupOrphanUploaders] at hu ⊢
    exact (List.mem_filter.mp hu).2
  · intro u hu hrest
    cases hfind : s.photos.find? (fun p => p.id == mid) with
    | none => unfold deletePhoto; rw [hfind]; exact hu
    | some photo =>
      unfold deletePhoto
      rw [hfind]
      simp only [cleanupOrphanUploaders]
      apply List.mem_filter.mpr
      refine ⟨hu, ?_⟩
      unfold referencedByMedia
      rw [Bool.or_eq_true]
      rcases hrest with ⟨p, hp, hpu, hpid⟩ | ⟨v, hv, hvu⟩
      · left
        apply List.any_eq_true.mpr
        exact ⟨p, List.mem_filter.mpr ⟨hp, by simp [hpid]⟩, by simp [hpu]⟩
      · right
        apply List.any_eq_true.mpr
        exact ⟨v, hv, by simp [hvu]⟩
  · intro u hu hrest
    cases hfind : s.videos.find? (fun v => v.id == mid) with
    | none => unfold deleteVideo; rw [hfind]; exact hu
    | some video =>
      unfold deleteVideo
      rw [hfind]
      simp only [cleanupOrphanUploaders]
      apply List.mem_filter.mpr
      refine ⟨hu, ?_⟩
      unfold referencedByMedia
      rw [Bool.or_eq_true]
      rcases hrest with ⟨v, hv, hvu, hvid⟩ | ⟨p, hp, hpu⟩
      · right
        apply List.any_eq_true.mpr
        exact ⟨v, List.mem_filter.mpr ⟨hv, by simp [hvid]⟩, by simp [hvu]⟩
      · left
        apply List.any_eq_true.mpr
        exact ⟨p, hp, by simp [hpu]⟩

/-- Witness store for the delete claims: uploader 1 owns photo 1 only;
uploader 2 owns photo 2 and video 1. -/
def wDelStore : Store :=
  { uploaders := [{ id := 1, name := "A", normalized_name := "a" },
                  { id := 2, name := "B", normalized_name := "b" }],
    photos := [{ id := 1, uploader_id := 1, filename := "p1", original_name := "o",
                 mime_type := "m", size := 1 },
               { id := 2, uploader_id := 2, filename := "p2", original_name := "o",
                 mime_type := "m", size := 1 }],
    videos := [{ id := 1, uploader_id := 2, filename := "v1", original_name := "o",
                 mime_type := "m", size := 1 }],
    nextUploaderId := 3, nextPhotoId := 3, nextVideoId := 2 }

theorem delete_gc_uploaders_witness :
    ({ id := 2, name := "B", normalized_name := "b" } : Uploader) ∈
      (deletePhoto wDelStore [] 1).1.uploaders :=
  (delete_gc_uploaders wDelStore [] 1).2.2.2.2.1
    { id := 2, name := "B", normalized_name := "b" } (by decide) (Or.inr (by decide))

/-- Witness store for the rejection claims: uploader `A` already has ten
photos, so the per-person photo limit is exhausted while the gallery is not
full. -/
def wStoreFull : Store :=
  { uploaders := [{ id := 1, name := "A", normalized_name := "a" }],
    photos := (List.range 10).map (fun i =>
      { id := i + 1, uploader_id := 1, filename := "f", original_name := "o",
        mime_type := "m", size := 1 }),
    videos := [],
    nextUploaderId := 2, nextPhotoId := 11, nextVideoId := 1 }

/-- One uploaded file used by the witnesses. -/
def wFile : UploadedFile :=
  { filename := "stored.jpg", originalname := "pic.jpg", mimetype := "image/jpeg", size := 4 }

theorem reject_reason_selection_witness :
    (postUploadPhotos wStoreFull [] "A" [wFile] (fun _ => false)).error =
      some "You have already uploaded your maximum of 10 photos." := by
  have h := (reject_reason_selection 1 2 3 wStoreFull [] "A" [wFile] (fun _ => false)
    (by decide) (by decide)).2.2.2.2.1 (by decide)
  rw [h]
  decide

theorem insertAll_ok (fails : MediaRow → Bool) :
    ∀ (rows table : List MediaRow), (∀ r ∈ rows, fails r = false) →
      insertAll table fails rows = some (table ++ rows) := by
  intro rows
  induction rows with
  | nil => intro table _; simp [insertAll]
  | cons r rs ih =>
    intro table h
    have hr : fails r = false := h r (List.mem_cons_self _ _)
    show (if fails r then none else insertAll (table ++ [r]) fails rs) = _
    rw [if_neg (by simp [hr])]
    rw [ih (table ++ [r]) (fun x hx => h x (List.mem_cons_of_mem _ hx))]
    simp

theorem insertAll_fail (fails : MediaRow → Bool) :
    ∀ (rows table : List MediaRow), (∃ r ∈ rows, fails r = true) →
      insertAll table fails rows = none := by
  intro rows
  induction rows with
  | nil => intro table h; simp at h
  | cons r rs ih =>
    intro table h
    show (if fails r then none else insertAll (table ++ [r]) fails rs) = _
    rcases hr : fails r with _ | _
    · rw [if_neg (by simp)]
      apply ih
      rcases h with ⟨x, hx, hfx⟩
      rcases List.mem_cons.mp hx with h1 | h2
      · subst h1; rw [hr] at hfx; exact absurd hfx (by simp)
      · exact ⟨x, h2, hfx⟩
    · rw [if_pos rfl]

theorem mem_unlinkAll (g : String) : ∀ (fs : List UploadedFile) (disk : List String),
    g ∈ unlinkAll disk fs ↔ g ∈ disk ∧ ∀ f ∈ fs, ¬ g = f.filename := by
  intro fs
  induction fs with
  | nil => intro disk; simp [unlinkAll]
  | cons f fs ih =>
    intro disk
    show g ∈ unlinkAll (disk.filter fun x => !(x == f.filename)) fs ↔ _
    rw [ih]
    simp only [List.mem_filter, List.forall_mem_cons]
    constructor
    · rintro ⟨⟨hd, hne⟩, hall⟩
      exact ⟨hd, by simpa using hne, hall⟩
    · rintro ⟨hd, hne, hall⟩
      exact ⟨⟨hd, by simpa using hne⟩, hall⟩

theorem getOrCreateUploader_tables (s : Store) (name : String) :
    (getOrCreateUploader s name).2.photos = s.photos ∧
    (getOrCreateUploader s name).2.videos = s.videos := by
  cases hfind : s.uploaders.find? (fun v => v.normalized_name == normalizeName name) with
  | some u => rw [getOrCreateUploader_of_found s name u hfind]; exact ⟨rfl, rfl⟩
  | none => rw [getOrCreateUploader_of_notFound s name hfind]; exact ⟨rfl, rfl⟩

/-- C2: for every batch that reaches persistence the accepted rows are written
in one atomic transaction: when no insert fails they are all appended to the
`photos` table; when any insert fails the table keeps exactly its previous
rows (full rollback) and every file of the request is deleted from the upload
directory — a persistence failure leaves neither orphaned rows nor orphaned
files. -/
theorem upload_persistence_atomic (s : Store) (disk : List String) (name : String)
    (files : List UploadedFile) (fails : MediaRow → Bool) (u : Uploader) (s1 : Store)
    (hres : getOrCreateUploader s name = (u, s1))
    (hname : ¬ jsTrim name = "") (hfiles : ¬ files.isEmpty = true)
    (hadm : ¬ allowedNow (getUploaderPhotoCount s1 u.id) MAX_PHOTOS_PER_PERSON
      (getTotalPhotoCount s1) MAX_TOTAL_PHOTOS ≤ 0) :
    ((∀ r ∈ mkRows u.id s1.nextPhotoId
        (files.take (allowedNow (getUploaderPhotoCount s1 u.id) MAX_PHOTOS_PER_PERSON
          (getTotalPhotoCount s1) MAX_TOTAL_PHOTOS).toNat), fails r = false) →
      (postUploadPhotos s disk name files fails).store.photos =
        s.photos ++ mkRows u.id s1.nextPhotoId
          (files.take (allowedNow (getUploaderPhotoCount s1 u.id) MAX_PHOTOS_PER_PERSON
            (getTotalPhotoCount s1) MAX_TOTAL_PHOTOS).toNat) ∧
      (postUploadPhotos s disk name files fails).error = none) ∧
    ((∃ r ∈ mkRows u.id s1.nextPhotoId
        (files.take (allowedNow (getUploaderPhotoCount s1 u.id) MAX_PHOTOS_PER_PERSON
          (getTotalPhotoCount s1) MAX_TOTAL_PHOTOS).toNat), fails r = true) →
      (postUploadPhotos s disk name files fails).store.photos = s.photos ∧
      (postUploadPhotos s disk name files fails).error.isSome = true ∧
      ∀ f ∈ files, ¬ f.filename ∈ (postUploadPhotos s disk name files fails).disk) := by
  have hphotos : s1.photos = s.photos := by
    have := (getOrCreateUploader_tables s name).1
    rw [hres] at this
    exact this
  constructor
  · intro hok
    have hins := insertAll_ok fails _ s1.photos hok
    simp only [postUploadPhotos, hres]
    rw [if_neg hname, if_neg hfiles]
    rw [if_neg hadm]
    rw [hins]
    exact ⟨by rw [hphotos], rfl⟩
  · intro hbad
    have hins := insertAll_fail fails _ s1.photos hbad
    simp only [postUploadPhotos, hres]
    rw [if_neg hname, if_neg hfiles]
    rw [if_neg hadm]
    rw [hins]
    refine ⟨hphotos, rfl, ?_⟩
    intro f hf hmem
    have := ((mem_unlinkAll f.filename files _).mp hmem).2 f hf
    exact this rfl

theorem upload_persistence_atomic_witness :
    (postUploadPhotos emptyStore ["stored.jpg"] "Bob" [wFile]
        (fun _ => true)).store.photos = [] ∧
      ¬ ("stored.jpg" ∈ (postUploadPhotos emptyStore ["stored.jpg"] "Bob" [wFile]
        (fun _ => true)).disk) := by
  have h := (upload_persistence_atomic emptyStore ["stored.jpg"] "Bob" [wFile]
    (fun _ => true) (getOrCreateUploader emptyStore "Bob").1
    (getOrCreateUploader emptyStore "Bob").2 rfl (by decide) (by decide) (by decide)).2
    (by decide)
  exact ⟨h.1, fun hmem => h.2.2 wFile (List.mem_cons_self _ _) hmem⟩

theorem digitChar_isDigit (n : Nat) (h : n < 10) : (digitChar n).isDigit = true := by
  interval_cases n <;> decide

theorem digitVal_digitChar (n : Nat) (h : n < 10) : digitVal (digitChar n) = n := by
  interval_cases n <;> decide

theorem decDigitsAux_congr (f₁ : Nat) : ∀ (f₂ n : Nat), n < f₁ → n < f₂ →
    decDigitsAux f₁ n = decDigitsAux f₂ n := by
  induction f₁ with
  | zero => intro f₂ n h₁ _; exact absurd h₁ (Nat.not_lt_zero n)
  | succ f ih =>
    intro f₂ n h₁ h₂
    cases f₂ with
    | zero => exact absurd h₂ (Nat.not_lt_zero n)
    | succ g =>
      simp only [decDigitsAux]
      split
      · rfl
      · rename_i h10
        have hn : n / 10 < n := Nat.div_lt_self (by omega) (by omega)
        rw [ih g (n / 10) (by omega) (by omega)]

theorem decDigits_eq (n : Nat) :
    decDigits n = if n < 10 then [digitChar n]
      else decDigits (n / 10) ++ [digitChar (n % 10)] := by
  show decDigitsAux (n + 1) n = _
  simp only [decDigitsAux]
  split
  · rfl
  · rename_i h10
    have hn : n / 10 < n := Nat.div_lt_self (by omega) (by omega)
    rw [decDigitsAux_congr n (n / 10 + 1) (n / 10) (by omega) (by omega)]
    rfl

theorem decDigits_all_digits : ∀ (k n : Nat), n ≤ k →
    ∀ c ∈ decDigits n, c.isDigit = true := by
  intro k
  induction k with
  | zero =>
    intro n h c hc
    have hn : n = 0 := Nat.le_zero.mp h
    subst hn
    rw [decDigits_eq, if_pos (by omega)] at hc
    rcases List.mem_singleton.mp hc with rfl
    exact digitChar_isDigit 0 (by omega)
  | succ k ih =>
    intro n h c hc
    rw [decDigits_eq] at hc
    by_cases h10 : n < 10
    · rw [if_pos h10] at hc
      rcases List.mem_singleton.mp hc with rfl
      exact digitChar_isDigit n h10
    · rw [if_neg h10] at hc
      rcases List.mem_append.mp hc with h1 | h2
      · have hn : n / 10 < n := Nat.div_lt_self (by omega) (by omega)
        exact ih (n / 10) (by omega) c h1
      · rcases List.mem_singleton.mp h2 with rfl
        exact digitChar_isDigit _ (Nat.mod_lt _ (by omega))

theorem decValue_decDigits_general : ∀ (k n : Nat), n ≤ k → ∀ (acc : Nat),
    (decDigits n).foldl (fun a c => 10 * a + digitVal c) acc =
      acc * 10 ^ (decDigits n).length + n := by
  intro k
  induction k with
  | zero =>
    intro n h acc
    have hn : n = 0 := Nat.le_zero.mp h
    subst hn
    rw [decDigits_eq, if_pos (by omega)]
    show 10 * acc + digitVal (digitChar 0) = acc * 10 ^ 1 + 0
    rw [digitVal_digitChar 0 (by omega)]
    ring
  | succ k ih =>
    intro n h acc
    by_cases h10 : n < 10
    · rw [decDigits_eq, if_pos h10]
      show 10 * acc + digitVal (digitChar n) = acc * 10 ^ 1 + n
      rw [digitVal_digitChar n h10]
      ring
    · rw [decDigits_eq, if_neg h10]
      rw [List.foldl_append]
      have hn : n / 10 < n := Nat.div_lt_self (by omega) (by omega)
      rw [ih (n / 10) (by omega) acc]
      simp only [List.foldl_cons, List.foldl_nil, List.length_append, List.length_cons,
        List.length_nil, Nat.zero_add]
      rw [digitVal_digitChar _ (Nat.mod_lt _ (by omega)), pow_succ]
      have hdm : 10 * (n / 10) + n % 10 = n := Nat.div_add_mod n 10
      set Y := acc * 10 ^ (decDigits (n / 10)).length with hY
      rw [← Nat.mul_assoc]
      omega

theorem decValue_decDigits (n : Nat) : decValue (decDigits n) = n := by
  have h := decValue_decDigits_general n n (Nat.le_refl n) 0
  simpa [decValue] using h

theorem decValue_replicate_zero (m : Nat) (l : List Char) :
    decValue (List.replicate m '0' ++ l) = decValue l := by
  induction m with
  | zero => rfl
  | succ m ih =>
    have hstep : (10 * 0 + digitVal '0') = 0 := by decide
    show (List.replicate (m + 1) '0' ++ l).foldl (fun a c => 10 * a + digitVal c) 0 = _
    rw [List.replicate_succ, List.cons_append, List.foldl_cons, hstep]
    exact ih

theorem decValue_padStart (n : Nat) : decValue (padStartList (decDigits n) 4 '0') = n := by
  unfold padStartList
  rw [decValue_replicate_zero, decValue_decDigits]

theorem padStart_all_digits (n : Nat) :
    ∀ c ∈ padStartList (decDigits n) 4 '0', c.isDigit = true := by
  intro c hc
  rcases List.mem_append.mp hc with h | h
  · rcases List.eq_of_mem_replicate h with rfl
    decide
  · exact decDigits_all_digits n n (Nat.le_refl _) c h

theorem stagedName_takeWhile (kind : List Char) (rid : Nat) (o f : List Char) :
    (stagedNameList kind rid o f).takeWhile Char.isDigit =
      padStartList (decDigits rid) 4 '0' := by
  show ((padStartList (decDigits rid) 4 '0' ++
    '-' :: sanitizeList (if o.isEmpty then kind ++ '-' :: (decDigits rid ++ extname f)
      else o)).takeWhile Char.isDigit) = _
  rw [List.takeWhile_append_of_pos (padStart_all_digits rid)]
  rw [List.takeWhile_cons_of_neg (by decide)]
  simp

theorem stagedName_inj (kind : List Char) (rid₁ rid₂ : Nat) (o₁ f₁ o₂ f₂ : List Char)
    (h : stagedNameList kind rid₁ o₁ f₁ = stagedNameList kind rid₂ o₂ f₂) :
    rid₁ = rid₂ := by
  have h1 := stagedName_takeWhile kind rid₁ o₁ f₁
  have h2 := stagedName_takeWhile kind rid₂ o₂ f₂
  rw [h] at h1
  have h3 : padStartList (decDigits rid₁) 4 '0' = padStartList (decDigits rid₂) 4 '0' := by
    rw [← h1, ← h2]
  have h4 := congrArg decValue h3
  rwa [decValue_padStart, decValue_padStart] at h4

theorem extname_no_slash (l : List Char) : ∀ c ∈ extname l, ¬ c = '/' := by
  intro c hc
  simp only [extname] at hc
  split at hc
  · simp at hc
  · split at hc
    · simp at hc
    · split at hc
      · simp at hc
      · have hbase := List.mem_of_mem_drop hc
        rw [List.mem_reverse] at hbase
        have hpred := List.mem_takeWhile_imp hbase
        simpa using hpred

theorem drop_lastDot_general (A : List Char) (d : Char) (tail : List Char) :
    ((A ++ d :: tail).reverse).drop ((A ++ d :: tail).reverse.length - A.length - 1) =
      d :: A.reverse := by
  have h1 : (A ++ d :: tail).reverse = tail.reverse ++ [d] ++ A.reverse := by simp
  rw [h1]
  have h2 : (tail.reverse ++ [d] ++ A.reverse).length - A.length - 1 = tail.length := by
    simp
    omega
  rw [h2, List.append_assoc, List.drop_left' (by simp)]
  rfl

theorem extname_shape (l : List Char) :
    extname l = [] ∨ ∃ t, extname l = '.' :: t := by
  simp only [extname]
  split
  · exact Or.inl rfl
  · split
    · exact Or.inl rfl
    · split
      · exact Or.inl rfl
      · rename_i hlen _
        right
        set revBase := (l.reverse.dropWhile (fun c => c == '/')).takeWhile
          (fun c => !(c == '/')) with hrevBase
        set A := revBase.takeWhile (fun c => !(c == '.')) with hA
        have hsplit := List.takeWhile_append_dropWhile (p := fun c => !(c == '.'))
          (l := revBase)
        rcases hrest : revBase.dropWhile (fun c => !(c == '.')) with _ | ⟨d, tail⟩
        · exfalso
          rw [hrest, List.append_nil] at hsplit
          exact hlen (congrArg List.length hsplit)
        · have hd : d = '.' := by
            have := dropWhile_head_not (fun c => !(c == '.')) revBase d
              (by rw [hrest]; rfl)
            simpa using this
          subst hd
          rw [hrest] at hsplit
          refine ⟨A.reverse, ?_⟩
          rw [← hsplit]
          exact drop_lastDot_general A '.' tail

theorem takeWhile_digits_dash (n : Nat) (X : List Char) :
    (decDigits n ++ '-' :: X).takeWhile Char.isDigit = decDigits n := by
  rw [List.takeWhile_append_of_pos (decDigits_all_digits n n (Nat.le_refl _))]
  rw [List.takeWhile_cons_of_neg (by decide)]
  simp

theorem takeWhile_digits_ext (n : Nat) (X : List Char)
    (hX : X = [] ∨ ∃ t, X = '.' :: t) :
    (decDigits n ++ X).takeWhile Char.isDigit = decDigits n := by
  rw [List.takeWhile_append_of_pos (decDigits_all_digits n n (Nat.le_refl _))]
  rcases hX with rfl | ⟨t, rfl⟩
  · simp
  · rw [List.takeWhile_cons_of_neg (by decide)]
    simp

theorem decDigits_inj {a b : Nat} (h : decDigits a = decDigits b) : a = b := by
  have := congrArg decValue h
  rwa [decValue_decDigits, decValue_decDigits] at this

/-- C9 counterexample: the stored filename is not independent of the
user-supplied original filename — the original's extension is copied into the
stored name, so the same timestamp and random draw give different stored names
for different originals. -/
theorem storage_filename_counterexample :
    ¬ storageFilename 0 0 "a.jpg".data = storageFilename 0 0 "a.png".data := by decide

/-- C9 (amended): the stored name is the timestamp and the random draw joined
by a dash followed by the extension of the original filename; only that
extension depends on the original, no stored name contains a path separator
(so no choice of original filename escapes the upload directory), and two
stored names coincide only when the timestamp, the random draw and the
extension all coincide. -/
theorem storage_filename_safe (now rand : Nat) (originalname : List Char) :
    (∀ c ∈ storageFilename now rand originalname, ¬ c = '/') ∧
    (∀ (now₂ rand₂ : Nat) (o₂ : List Char),
      storageFilename now rand originalname = storageFilename now₂ rand₂ o₂ →
      now = now₂ ∧ rand = rand₂ ∧ extname originalname = extname o₂) := by
  constructor
  · intro c hc
    unfold storageFilename at hc
    rcases List.mem_append.mp hc with h | h
    · intro heq
      subst heq
      exact absurd (decDigits_all_digits now now (Nat.le_refl _) _ h) (by decide)
    · rcases List.mem_cons.mp h with h1 | h2
      · subst h1
        decide
      · rcases List.mem_append.mp h2 with h3 | h4
        · intro heq
          subst heq
          exact absurd (decDigits_all_digits rand rand (Nat.le_refl _) _ h3) (by decide)
        · exact extname_no_slash originalname c h4
  · intro now₂ rand₂ o₂ h
    unfold storageFilename at h
    have e1 : decDigits now = decDigits now₂ := by
      have h1 := congrArg (List.takeWhile Char.isDigit) h
      rwa [takeWhile_digits_dash, takeWhile_digits_dash] at h1
    have hnow : now = now₂ := decDigits_inj e1
    subst hnow
    have h2 : decDigits rand ++ extname originalname = decDigits rand₂ ++ extname o₂ := by
      have h3 := List.append_cancel_left h
      injection h3
    have e2 : decDigits rand = decDigits rand₂ := by
      have h4 := congrArg (List.takeWhile Char.isDigit) h2
      rwa [takeWhile_digits_ext rand _ (extname_shape originalname),
        takeWhile_digits_ext rand₂ _ (extname_shape o₂)] at h4
    have hrand : rand = rand₂ := decDigits_inj e2
    subst hrand
    exact ⟨rfl, rfl, List.append_cancel_left h2⟩

theorem storage_filename_safe_witness :
    extname "a.jpg".data = extname "b.jpg".data :=
  ((storage_filename_safe 5 6 "a.jpg".data).2 5 6 "b.jpg".data (by decide)).2.2

/-- C7 counterexample: for a record with an empty original name the staged
name is built from the sanitized fallback `photo-<id><ext>`, not from the
sanitized original filename. -/
theorem staged_name_counterexample :
    ¬ stagedNameList "photo".data 1 [] "f.jpg".data =
      padStartList (decDigits 1) 4 '0' ++ '-' :: sanitizeList [] := by decide

/-- C7 (amended): the staged archive name is the record id zero-padded to at
least four digits, a dash, and the sanitized original filename — or the
sanitized fallback `<kind>-<id><ext>` when the original name is empty.  The
digit prefix reads back exactly the record id, so staged names are pairwise
unique for distinct record ids, and along the newest-first query order
(descending ids) the embedded numbers are strictly decreasing, preserving that
order inside the archive. -/
theorem staged_archive_names (kind : List Char) (rid : Nat)
    (originalName fname : List Char) :
    (¬ originalName = [] →
      stagedNameList kind rid originalName fname =
        padStartList (decDigits rid) 4 '0' ++ '-' :: sanitizeList originalName) ∧
    decValue ((stagedNameList kind rid originalName fname).takeWhile Char.isDigit) = rid ∧
    (∀ (rid₂ : Nat) (o₂ f₂ : List Char), ¬ rid = rid₂ →
      ¬ stagedNameList kind rid originalName fname = stagedNameList kind rid₂ o₂ f₂) ∧
    (∀ rs : List MediaRow, rs.Chain' (fun x y => y.id < x.id) →
      (rs.map (fun r => decValue ((stagedNameList kind r.id r.original_name.data
        r.filename.data).takeWhile Char.isDigit))).Chain' (fun x y => y < x)) := by
  refine ⟨?_, ?_, ?_, ?_⟩
  · intro h
    show padStartList (decDigits rid) 4 '0' ++
      '-' :: sanitizeList (if originalName.isEmpty then
        kind ++ '-' :: (decDigits rid ++ extname fname) else originalName) = _
    rw [if_neg (by simpa [List.isEmpty_iff] using h)]
  · rw [stagedName_takeWhile, decValue_padStart]
  · intro rid₂ o₂ f₂ hne heq
    exact hne (stagedName_inj kind rid rid₂ originalName fname o₂ f₂ heq)
  · intro rs hchain
    rw [List.chain'_map]
    refine hchain.imp ?_
    intro a b hab
    rw [stagedName_takeWhile, stagedName_takeWhile, decValue_padStart, decValue_padStart]
    exact hab

theorem staged_archive_names_witness :
    stagedNameList "photo".data 7 "My Pic?.jpg".data "123-456.jpg".data =
      padStartList (decDigits 7) 4 '0' ++ '-' :: sanitizeList "My Pic?.jpg".data :=
  (staged_archive_names "photo".data 7 "My Pic?.jpg".data "123-456.jpg".data).1 (by decide)

/-- C6: the archive export yields exactly the spec's outcomes: zero records
give the "nothing to download" error with no scratch directory and no archive
ever created; records whose files are all absent give the "files missing on
disk" error and no archive; a compression failure gives the "could not create
archive" error; a successful run streams the download; and on every failure
the scratch directory and the archive file are gone before responding. -/
theorem export_outcomes (records : List MediaRow) (disk : List String) (zipOk : Bool)
    (kind : String) (noneMsg missingMsg zipFailMsg : String) :
    (records = [] →
      (exportMedia records disk zipOk kind noneMsg missingMsg zipFailMsg).error =
          some noneMsg ∧
        (exportMedia records disk zipOk kind noneMsg missingMsg zipFailMsg).tempDirCreated =
          false ∧
        (exportMedia records disk zipOk kind noneMsg missingMsg zipFailMsg).archiveCreated =
          false) ∧
    (¬ records = [] → (∀ r ∈ records, ¬ r.filename ∈ disk) →
      (exportMedia records disk zipOk kind noneMsg missingMsg zipFailMsg).error =
          some missingMsg ∧
        (exportMedia records disk zipOk kind noneMsg missingMsg zipFailMsg).archiveCreated =
          false) ∧
    (¬ records = [] → (∃ r ∈ records, r.filename ∈ disk) → zipOk = false →
      (exportMedia records disk zipOk kind noneMsg missingMsg zipFailMsg).error =
        some zipFailMsg) ∧
    (¬ records = [] → (∃ r ∈ records, r.filename ∈ disk) → zipOk = true →
      (exportMedia records disk zipOk kind noneMsg missingMsg zipFailMsg).error = none ∧
      (exportMedia records disk zipOk kind noneMsg missingMsg zipFailMsg).downloaded = true) ∧
    ((exportMedia records disk zipOk kind noneMsg missingMsg zipFailMsg).error.isSome = true →
      (exportMedia records disk zipOk kind noneMsg missingMsg zipFailMsg).tempDirExists =
          false ∧
        (exportMedia records disk zipOk kind noneMsg missingMsg zipFailMsg).archiveExists =
          false) := by
  refine ⟨?_, ?_, ?_, ?_, ?_⟩
  · rintro rfl
    exact ⟨rfl, rfl, rfl⟩
  · intro hne hmiss
    simp only [exportMedia]
    rw [if_neg (by simpa [List.isEmpty_iff] using hne)]
    have hfilter : records.filter (fun r => disk.contains r.filename) = [] := by
      rw [List.filter_eq_nil_iff]
      intro r hr
      simpa using hmiss r hr
    rw [if_pos (List.isEmpty_iff.mpr (List.map_eq_nil_iff.mpr hfilter))]
    exact ⟨rfl, rfl⟩
  · rintro hne ⟨r, hr, hmem⟩ hzip
    simp only [exportMedia]
    rw [if_neg (by simpa [List.isEmpty_iff] using hne)]
    have hrf : r ∈ records.filter (fun x => disk.contains x.filename) :=
      List.mem_filter.mpr ⟨hr, by simpa using hmem⟩
    rw [if_neg (by
      simp only [List.isEmpty_iff, List.map_eq_nil_iff]
      intro hnil
      rw [hnil] at hrf
      simp at hrf)]
    rw [hzip]
    rw [if_neg (by simp)]
  · rintro hne ⟨r, hr, hmem⟩ hzip
    simp only [exportMedia]
    rw [if_neg (by simpa [List.isEmpty_iff] using hne)]
    have hrf : r ∈ records.filter (fun x => disk.contains x.filename) :=
      List.mem_filter.mpr ⟨hr, by simpa using hmem⟩
    rw [if_neg (by
      simp only [List.isEmpty_iff, List.map_eq_nil_iff]
      intro hnil
      rw [hnil] at hrf
      simp at hrf)]
    rw [hzip]
    rw [if_pos rfl]
    exact ⟨rfl, rfl⟩
  · intro _
    refine ⟨?_, ?_⟩ <;>
    · simp only [exportMedia]
      split
      · rfl
      · split
        · rfl
        · split <;> rfl

theorem export_outcomes_witness :
    (exportMedia [] [] true "photo" "No photos to download."
      "Photo files are missing on disk."
      "Could not create ZIP archive on this server.").error =
        some "No photos to download." :=
  ((export_outcomes [] [] true "photo" "No photos to download."
    "Photo files are missing on disk."
    "Could not create ZIP archive on this server.").1 rfl).1

/-- C8 counterexample: a non-empty non-numeric environment value is truthy in
JS, so it reaches `Number`, and the effective configuration value is `NaN`
(modelled as `none`), not the documented default. -/
theorem env_config_counterexample :
    jsNumberOfString "abc" = none ∧ envNumberConfig (some "abc") 10 = none ∧
      ¬ envNumberConfig (some "abc") 10 = some 10 := by decide

/-- C8 (amended): a numeric configuration value falls back to its documented
default when the environment variable is absent or the empty string; any
other value is handed to `Number` unchanged, so a non-empty non-numeric value
yields `NaN` rather than the default. -/
theorem env_config_defaults (dflt : Int) (s : String) (hs : ¬ s = "") :
    envNumberConfig none dflt = some dflt ∧
    envNumberConfig (some "") dflt = some dflt ∧
    envNumberConfig (some s) dflt = jsNumberOfString s := by
  refine ⟨rfl, ?_, ?_⟩
  · show (if ("" : String) = "" then some dflt else jsNumberOfString "") = some dflt
    rw [if_pos rfl]
  · show (if s = "" then some dflt else jsNumberOfString s) = _
    rw [if_neg hs]

theorem env_config_defaults_witness :
    envNumberConfig (some "25") 10 = jsNumberOfString "25" :=
  (env_config_defaults 10 "25" (by decide)).2.2

/-- C10: the archive-name sanitizer is idempotent: applying
`sanitizeArchiveFilename` twice gives the same result as applying it once —
its output contains no character of the replaced set and no whitespace run,
so it is a fixed point of the sanitizer. -/
theorem sanitizeArchiveFilename_idem (s : String) :
    sanitizeArchiveFilename (sanitizeArchiveFilename s) = sanitizeArchiveFilename s := by
  show (⟨sanitizeList (sanitizeList s.data)⟩ : String) = ⟨sanitizeList s.data⟩
  rw [sanitizeList_idem]

end WeddingMedia
